import Mathlib

/-!
Shallow embedding of `packages/expo-router/build/useScreens.js`: the order
reconciler (`getSortedChildren`), the identifier generator
(`createGetIdForRoute`), the component cache (`getQualifiedRouteComponent`)
and the options builder of `routeToScreen`, together with theorems about the
spec claims C1..C10.

Machine-level JS notions are embedded explicitly: object identity becomes a
numeric handle, truthiness becomes a Bool predicate on an explicit value type,
a thrown `Error` becomes `Except.error`, and the in-place mutation of the
caller's `children` array by `Array.prototype.sort` is returned as an explicit
post-state component.
-/

namespace UseScreens

/-- One captured path parameter of a route (spec section 3): `name` is the key
expected in the runtime parameter bag, `deep` marks a catch-all segment. -/
structure DynamicSegment where
  name : String
  deep : Bool
deriving DecidableEq, Repr

/-- A file-system-derived route (spec section 3). As in the source, the field
holding the route's name segment is called `route` (`child.route === name`,
`value.route`, `route.route` in `useScreens.js`); `contextKey` is the stable
fallback key; `children` is the ordered child sequence (empty for leaves);
`dynamic` the optional dynamic-segment list; `generated` the synthesized-route
flag; `initialRouteName` names the child pinned first by the comparator. -/
structure RouteNode where
  route : String
  contextKey : String
  children : List RouteNode
  dynamic : Option (List DynamicSegment)
  generated : Bool
  initialRouteName : Option String

/-- The `redirect` field of an ordering entry, as the JS value space the code
distinguishes: absent, a string, or any other value with its truthiness. -/
inductive Redirect
  | undefined
  | str (s : String)
  | other (truthy : Bool)
deriving DecidableEq, Repr

/-- JS truthiness of a `redirect` value: `undefined` and `""` are falsy. -/
def Redirect.isTruthy : Redirect → Bool
  | .undefined => false
  | .str s => s != ""
  | .other t => t

/-- The check `typeof redirect === "string"`. -/
def Redirect.isString : Redirect → Bool
  | .str _ => true
  | _ => false

/-- The per-route override props forwarded by the reconciler
(`{ initialParams, listeners, options, getId }`). Their payloads are never
inspected by the reconciler, so they are embedded as opaque strings; `{}` is
all-absent. -/
structure ScreenProps where
  initialParams : Option String := none
  listeners : Option String := none
  options : Option String := none
  getId : Option String := none
deriving DecidableEq, Repr

/-- One author-declared ordering entry (spec section 3, OrderEntry). -/
structure OrderEntry where
  name : String
  redirect : Redirect := .undefined
  initialParams : Option String := none
  listeners : Option String := none
  options : Option String := none
  getId : Option String := none
deriving DecidableEq, Repr

/-- The props object the reconciler emits from an entry's remaining fields. -/
def OrderEntry.props (e : OrderEntry) : ScreenProps :=
  { initialParams := e.initialParams, listeners := e.listeners,
    options := e.options, getId := e.getId }

/-- One reconciled output element: `{ route: match, props: {...} }`. -/
structure Screen where
  route : RouteNode
  props : ScreenProps

/-- Lexical "less or equal" on character lists by codepoint. -/
def charListLe : List Char → List Char → Bool
  | [], _ => true
  | _ :: _, [] => false
  | c :: cs, d :: ds =>
    if c.toNat < d.toNat then true
    else if d.toNat < c.toNat then false
    else charListLe cs ds

/-- Lexical "less or equal" on strings. -/
def stringLe (a b : String) : Bool := charListLe a.data b.data

/-- Modelled from the spec: `sortRoutesWithInitial` is imported from
`./Route`, whose source is not part of this repository snapshot. Spec
section 4.1: the node whose name equals `initialRouteName` sorts strictly
first; otherwise a stable total secondary ordering (lexical). Encoded as the
boolean "sorts no later than" relation consumed by a stable sort. -/
def sortRoutesWithInitial (initialRouteName : Option String) (a b : RouteNode) : Bool :=
  if initialRouteName = some a.route then true
  else if initialRouteName = some b.route then false
  else stringLe a.route b.route

/-- Insert into an already sorted list, before the first element that does not
have to precede it. -/
def jsSortInsert (le : α → α → Bool) (a : α) : List α → List α
  | [] => [a]
  | b :: l => if le a b then a :: b :: l else b :: jsSortInsert le a l

/-- Embedding of `Array.prototype.sort(cmp)` for a consistent comparator (the engine sort
is stable, and all stable sorts agree on a total preorder), as a computable
insertion sort. The JS sort mutates the array in place; callers of `jsSort`
thread the sorted contents explicitly where the source relies on that. -/
def jsSort (le : α → α → Bool) : List α → List α
  | [] => []
  | a :: l => jsSortInsert le a (jsSort le l)

/-- The body of the `order.map(...)` pass of `getSortedChildren`
(useScreens.js lines 21-49), with the mutable working copy `entries` threaded
explicitly and `throw` as `Except.error`: an entry against an empty working
copy or with no matching node warns and contributes nothing; a match is
removed (`findIndex` + `splice` = first-match erase); a truthy string redirect
throws; any other truthy redirect drops the entry, keeping the node consumed;
otherwise the match is emitted with the entry's props. -/
def processEntries : List OrderEntry → List RouteNode → Except String (List Screen × List RouteNode)
  | [], entries => .ok ([], entries)
  | e :: rest, entries =>
    if entries.isEmpty then
      processEntries rest entries
    else
      match entries.find? (fun child => child.route == e.name) with
      | none => processEntries rest entries
      | some m =>
        let entries' := entries.eraseP (fun child => child.route == e.name)
        if e.redirect.isTruthy then
          if e.redirect.isString then
            .error "Redirecting to a specific route is not supported yet."
          else
            processEntries rest entries'
        else
          match processEntries rest entries' with
          | .error msg => .error msg
          | .ok (out, rem) => .ok (⟨m, e.props⟩ :: out, rem)

/-- Embedding of `getSortedChildren(children, order, initialRouteName)` (useScreens.js
lines 14-53). The first component is the contents of the caller's `children`
array after the call: the no-order branch runs `children.sort(...)`, which
sorts the caller's array in place, while the order branch works on the copy
`[...children]` and leaves the caller's array untouched. The second component
is the returned list, or the thrown error. -/
def getSortedChildren : List RouteNode → Option (List OrderEntry) → Option String →
    List RouteNode × Except String (List Screen)
  | children, none, initialRouteName =>
    let s := jsSort (sortRoutesWithInitial initialRouteName) children
    (s, .ok (s.map (fun route => ⟨route, {}⟩)))
  | children, some o, initialRouteName =>
    if o.isEmpty then
      let s := jsSort (sortRoutesWithInitial initialRouteName) children
      (s, .ok (s.map (fun route => ⟨route, {}⟩)))
    else
      (children,
        match processEntries o children with
        | .error msg => .error msg
        | .ok (out, rem) =>
          .ok (out ++ (jsSort (sortRoutesWithInitial initialRouteName) rem).map
                (fun route => ⟨route, {}⟩)))

/-- The working copy left by processing a list of entries (the state the
`entries` array is in when a later entry is reached); used to phrase "an entry
that matches a child" at its processing point. Mirrors `processEntries` on the
consumption side. -/
def consume : List OrderEntry → List RouteNode → List RouteNode
  | [], entries => entries
  | e :: rest, entries =>
    if entries.isEmpty then consume rest entries
    else
      match entries.find? (fun child => child.route == e.name) with
      | none => consume rest entries
      | some _ => consume rest (entries.eraseP (fun child => child.route == e.name))

/-- A value in the runtime parameter bag: a string or an array of strings
(`mapping<string, string|string[]>`, spec section 6). -/
inductive ParamValue
  | str (s : String)
  | arr (l : List String)
deriving DecidableEq, Repr

/-- The runtime parameter bag, with JS object key order as list order; JS
object keys are unique, so facts that depend on it assume the key list is
duplicate-free. -/
abbrev Params := List (String × ParamValue)

/-- Lookup `params[k]`. -/
def getParam (params : Params) (k : String) : Option ParamValue :=
  (params.find? (fun p => p.1 == k)).map (fun p => p.2)

/-- One `include.set(segment.name, segment)` step of a JS `Map`: setting an
existing key keeps its insertion position and overwrites its value. -/
def mapSet (m : List DynamicSegment) (s : DynamicSegment) : List DynamicSegment :=
  if m.any (fun t => t.name == s.name) then
    m.map (fun t => if t.name == s.name then s else t)
  else m ++ [s]

/-- The `include` map built from `route.dynamic` (useScreens.js lines
140-145), in `Map.values()` iteration order. -/
def includeOf (dyn : List DynamicSegment) : List DynamicSegment :=
  dyn.foldl mapSet []

/-- The per-segment string of the identifier loop (useScreens.js lines
149-166): a non-empty array parameter joins with "/"; a truthy non-array
parameter is used directly (an empty string is falsy and is not); otherwise
the placeholder, catch-all style when the segment is deep. -/
def segmentFor (params : Params) (d : DynamicSegment) : String :=
  match getParam params d.name with
  | some (.arr l) =>
    if l.length > 0 then String.intercalate "/" l
    else if d.deep then "[..." ++ d.name ++ "]" else "[" ++ d.name ++ "]"
  | some (.str s) =>
    if s != "" then s
    else if d.deep then "[..." ++ d.name ++ "]" else "[" ++ d.name ++ "]"
  | none => if d.deep then "[..." ++ d.name ++ "]" else "[" ++ d.name ++ "]"

/-- JS template-literal coercion of a parameter value (an array stringifies
comma-joined), for the `key=value` serialization. -/
def ParamValue.toJSString : ParamValue → String
  | .str s => s
  | .arr l => String.intercalate "," l

/-- The function `createGetIdForRoute(route)` returns, applied to a parameter
bag (useScreens.js lines 139-193): dynamic segments stringified in `include`
order and joined with "/"; for a leaf route the parameter keys not consumed by
a dynamic segment and not `screen`/`params` are appended as
`base?key=value&...`, with `contextKey` as the base when the joined segments
are empty; the result is returned as-is otherwise. Calling with no argument is
calling with the empty bag. -/
def createGetIdForRoute (route : RouteNode) (params : Params) : String :=
  let inc := includeOf (route.dynamic.getD [])
  let segments := inc.map (segmentFor params)
  let unprocessedParams :=
    (params.map (fun p => p.1)).filter (fun k => !(inc.any (fun d => d.name == k)))
  let id := String.intercalate "/" segments
  let searchParams : List String :=
    if route.children.length == 0 then
      (unprocessedParams.filter (fun k => k != "screen" && k != "params")).map
        (fun k => k ++ "=" ++ (((getParam params k).map ParamValue.toJSString).getD "undefined"))
    else []
  if searchParams.length != 0 then
    (if id != "" then id else route.contextKey) ++ "?" ++ String.intercalate "&" searchParams
  else id

/-- An option value in a navigation options object: the two values the code
forces onto generated routes are distinguished, every other JS value is an
opaque tag. -/
inductive OptionValue
  | tabBarButtonHidden
  | drawerItemStyleHidden
  | value (tag : Nat)
deriving DecidableEq, Repr

/-- A JS options object as an association list in key insertion order. -/
abbrev OptionsObject := List (String × OptionValue)

/-- Lookup `o[k]`. -/
def getOption (o : OptionsObject) (k : String) : Option OptionValue :=
  (o.find? (fun p => p.1 == k)).map (fun p => p.2)

/-- Object spread `{...a, ...b}`: the keys of `a` in order with values
overridden by `b`, then the keys of `b` not in `a`. -/
def spread (a b : OptionsObject) : OptionsObject :=
  a.map (fun p => match getOption b p.1 with | some v => (p.1, v) | none => p)
    ++ b.filter (fun p => !(a.any (fun q => q.1 == p.1)))

/-- JS property assignment `o.k = v`: overwrite in place, or append. -/
def setOption (o : OptionsObject) (k : String) (v : OptionValue) : OptionsObject :=
  if o.any (fun p => p.1 == k) then
    o.map (fun p => if p.1 == k then (p.1, v) else p)
  else o ++ [(k, v)]

/-- The options closure built by `routeToScreen` (useScreens.js lines
198-213), with the already-evaluated static result (from the generated
route's eagerly loaded `getNavOptions`) and dynamic result (from the
override's `options`) as inputs: merge by spread, then for a generated route
force `tabBarButton` to render nothing and `drawerItemStyle` to the hidden
style. -/
def routeToScreenOptions (route : RouteNode) (staticResult dynamicResult : OptionsObject) :
    OptionsObject :=
  let output := spread staticResult dynamicResult
  if route.generated then
    setOption (setOption output "tabBarButton" .tabBarButtonHidden)
      "drawerItemStyle" .drawerItemStyleHidden
  else output

/-- A JS object reference, embedded as an opaque handle: two structurally
identical RouteNodes held by distinct references have distinct handles. -/
abbrev RouteRef := Nat

/-- The adapted component `getQualifiedRouteComponent` builds: a fresh
`forwardRef` closure capturing `value`, embedded as the reference it
captures. -/
structure QualifiedRoute where
  node : RouteRef
deriving DecidableEq, Repr

/-- The module-level `qualifiedStore` WeakMap, keyed by RouteNode reference. -/
abbrev QualifiedStore := List (RouteRef × QualifiedRoute)

/-- Every cached component is the one built for its own key; holds for every
store reachable from the empty initial store. -/
def storeWF (s : QualifiedStore) : Prop := ∀ p ∈ s, p.2.node = p.1

/-- Embedding of `getQualifiedRouteComponent(value)` (useScreens.js lines 96-136): return
the cached component for this reference if present, else build a fresh one,
cache it under the reference and return it. The store is threaded explicitly;
the result is the component together with the updated store. -/
def getQualifiedRouteComponent (store : QualifiedStore) (value : RouteRef) :
    QualifiedRoute × QualifiedStore :=
  match store.find? (fun p => p.1 == value) with
  | some p => (p.2, store)
  | none => ((⟨value⟩ : QualifiedRoute), (value, (⟨value⟩ : QualifiedRoute)) :: store)

/-! Spec-side definitions (written from the claims' words, to be compared with
the embedded code) and concrete fixtures used by witnesses, counterexamples
and scenario conjuncts. -/

/-- Spec side, claim C2: the explicitly ordered part of the reconciled output
is the entry sequence itself, each entry replaced by the first child carrying
its name paired with the entry's props, with redirect entries dropped. -/
def explicitPart (children : List RouteNode) (order : List OrderEntry) : List Screen :=
  order.filterMap (fun e =>
    if e.redirect.isTruthy then none
    else (children.find? (fun c => c.route == e.name)).map (fun n => ⟨n, e.props⟩))

/-- Spec side, claim C2: the children no ordering entry names. -/
def remainingNodes (children : List RouteNode) (order : List OrderEntry) : List RouteNode :=
  children.filter (fun c => !(order.any (fun e => e.name == c.route)))

/-- Spec side, claim C4 as stated: join a non-empty array parameter with "/";
use the parameter's value directly when it is present and not an array; the
deep placeholder when absent and the segment is deep; the plain placeholder
otherwise. -/
def claimedSegmentFor (params : Params) (d : DynamicSegment) : String :=
  match getParam params d.name with
  | some (.arr l) =>
    if l.length > 0 then String.intercalate "/" l else "[" ++ d.name ++ "]"
  | some (.str s) => s
  | none => if d.deep then "[..." ++ d.name ++ "]" else "[" ++ d.name ++ "]"

/-- Spec side, claim C4 amended: a present non-array parameter is used
directly only when it is non-empty (truthy); a deep segment falls back to its
catch-all placeholder whenever no usable value is available, present but empty
included. -/
def amendedSegmentFor (params : Params) (d : DynamicSegment) : String :=
  match getParam params d.name with
  | some (.arr l) =>
    if l ≠ [] then String.intercalate "/" l
    else if d.deep then "[..." ++ d.name ++ "]" else "[" ++ d.name ++ "]"
  | some (.str s) =>
    if s ≠ "" then s
    else if d.deep then "[..." ++ d.name ++ "]" else "[" ++ d.name ++ "]"
  | none => if d.deep then "[..." ++ d.name ++ "]" else "[" ++ d.name ++ "]"

/-- Spec side, claim C5: the residual query-parameter keys of a leaf route --
the runtime-parameter keys, in bag order, not consumed by any declared dynamic
segment and not one of the two reserved navigation keys. -/
def residualKeys (route : RouteNode) (params : Params) : List String :=
  (params.map (fun p => p.1)).filter (fun k =>
    !((route.dynamic.getD []).any (fun d => d.name == k))
      && k != "screen" && k != "params")

/-- The serialized `key=value` list for the residual keys. -/
def residualPairs (route : RouteNode) (params : Params) : List String :=
  (residualKeys route params).map (fun k =>
    k ++ "=" ++ (((getParam params k).map ParamValue.toJSString).getD "undefined"))

/-- Fixture: a plain leaf route named "a". -/
def nA : RouteNode := ⟨"a", "./a.js", [], none, false, none⟩

/-- Fixture: a plain leaf route named "b". -/
def nB : RouteNode := ⟨"b", "./b.js", [], none, false, none⟩

/-- Fixture: a plain leaf route named "c". -/
def nC : RouteNode := ⟨"c", "./c.js", [], none, false, none⟩

/-- Fixture: a leaf route with the single non-deep dynamic segment `post`. -/
def postRoute : RouteNode := ⟨"[post]", "./[post].js", [], some [⟨"post", false⟩], false, none⟩

/-- Fixture: a leaf route with the single deep dynamic segment `post`. -/
def deepPostRoute : RouteNode :=
  ⟨"[...post]", "./[...post].js", [], some [⟨"post", true⟩], false, none⟩

/-- Fixture: a static leaf route with no dynamic segments. -/
def aboutRoute : RouteNode := ⟨"about", "./about.js", [], none, false, none⟩

/-- Fixture: a non-leaf route (one child). -/
def parentRoute : RouteNode := ⟨"parent", "./parent.js", [aboutRoute], none, false, none⟩

/-- Fixture: an ordering entry whose truthy non-string redirect drops its
matched node. -/
def redirectDropEntry : OrderEntry := { name := "a", redirect := .other true }

/-- Fixture: a generated (synthesized) leaf route. -/
def genRoute : RouteNode := ⟨"gen", "./gen.js", [], none, true, none⟩

/-- Fixture: an ordering entry whose redirect is the empty string — falsy in
JS, so not a redirect at all. -/
def emptyRedirectEntry : OrderEntry := { name := "a", redirect := .str "" }

/-! General helper lemmas. -/

lemma jsSortInsert_perm (le : α → α → Bool) (a : α) :
    ∀ l : List α, (jsSortInsert le a l).Perm (a :: l)
  | [] => .refl _
  | b :: l => by
    unfold jsSortInsert
    cases h : le a b with
    | true => simp
    | false =>
      simp only [h, Bool.false_eq_true, if_false]
      exact ((jsSortInsert_perm le a l).cons b).trans (List.Perm.swap a b l)

lemma jsSort_perm (le : α → α → Bool) : ∀ l : List α, (jsSort le l).Perm l
  | [] => .refl _
  | a :: l => (jsSortInsert_perm le a (jsSort le l)).trans ((jsSort_perm le l).cons a)

lemma find?_eraseP_decomp {p : α → Bool} :
    ∀ {w : List α} {n : α}, w.find? p = some n →
      ∃ l1 l2, w = l1 ++ n :: l2 ∧ w.eraseP p = l1 ++ l2 ∧ ∀ b ∈ l1, p b = false := by
  intro w
  induction w with
  | nil => intro n h; simp at h
  | cons b w ih =>
    intro n h
    cases hp : p b with
    | true =>
      rw [List.find?_cons_of_pos _ hp] at h
      obtain rfl : b = n := by injection h
      exact ⟨[], w, by simp, by simp [List.eraseP_cons_of_pos hp], by simp⟩
    | false =>
      rw [List.find?_cons_of_neg _ (by simp [hp])] at h
      obtain ⟨l1, l2, hw, he, hl1⟩ := ih h
      refine ⟨b :: l1, l2, by simp [hw], ?_, ?_⟩
      · rw [List.eraseP_cons_of_neg (by simp [hp]), he]; simp
      · intro x hx
        rcases List.mem_cons.mp hx with hx | hx
        · exact hx ▸ hp
        · exact hl1 x hx

/-- The permutation `find?`/`eraseP` induce: the found element moves to the
front. -/
lemma perm_cons_eraseP_of_find? {p : α → Bool} {w : List α} {n : α}
    (h : w.find? p = some n) : w.Perm (n :: w.eraseP p) := by
  obtain ⟨l1, l2, hw, he, -⟩ := find?_eraseP_decomp h
  subst hw
  rw [he]
  exact List.perm_middle

lemma find?_middle_of_neg {p : α → Bool} {a : α} (h : p a = false) (l1 l2 : List α) :
    List.find? p (l1 ++ a :: l2) = List.find? p (l1 ++ l2) := by
  rw [List.find?_append, List.find?_append, List.find?_cons_of_neg _ (by simp [h])]

lemma nodup_of_subperm {l1 l2 : List α} (h : l1.Subperm l2) (hn : l2.Nodup) : l1.Nodup := by
  obtain ⟨l, hperm, hsub⟩ := h
  exact hperm.nodup (List.Nodup.sublist hsub hn)

lemma subperm_cons_of_subperm {l1 l2 : List α} (a : α) (h : l1.Subperm l2) :
    (a :: l1).Subperm (a :: l2) := (List.subperm_cons a).mpr h

/-! Step lemmas for `processEntries`: one per behavioral case of an entry. An
entry whose name matches nothing (the empty working copy included) is skipped;
a matched truthy string redirect throws; a matched other truthy redirect
consumes silently; a matched entry without truthy redirect emits. -/

lemma processEntries_cons_skip (e : OrderEntry) (rest : List OrderEntry) (w : List RouteNode)
    (hfind : w.find? (fun child => child.route == e.name) = none) :
    processEntries (e :: rest) w = processEntries rest w := by
  cases w with
  | nil => rfl
  | cons b w' =>
    conv_lhs => unfold processEntries
    rw [if_neg (by simp), hfind]

lemma processEntries_cons_throw (e : OrderEntry) (rest : List OrderEntry) (w : List RouteNode)
    (n : RouteNode) (hfind : w.find? (fun child => child.route == e.name) = some n)
    (ht : e.redirect.isTruthy = true) (hs : e.redirect.isString = true) :
    processEntries (e :: rest) w
      = .error "Redirecting to a specific route is not supported yet." := by
  cases w with
  | nil => simp at hfind
  | cons b w' =>
    conv_lhs => unfold processEntries
    rw [if_neg (by simp), hfind]
    simp [ht, hs]

lemma processEntries_cons_drop (e : OrderEntry) (rest : List OrderEntry) (w : List RouteNode)
    (n : RouteNode) (hfind : w.find? (fun child => child.route == e.name) = some n)
    (ht : e.redirect.isTruthy = true) (hs : e.redirect.isString = false) :
    processEntries (e :: rest) w
      = processEntries rest (w.eraseP (fun child => child.route == e.name)) := by
  cases w with
  | nil => simp at hfind
  | cons b w' =>
    conv_lhs => unfold processEntries
    rw [if_neg (by simp), hfind]
    simp [ht, hs]

lemma processEntries_cons_emit (e : OrderEntry) (rest : List OrderEntry) (w : List RouteNode)
    (n : RouteNode) (hfind : w.find? (fun child => child.route == e.name) = some n)
    (ht : e.redirect.isTruthy = false) :
    processEntries (e :: rest) w
      = (processEntries rest (w.eraseP (fun child => child.route == e.name))).map
          (fun r => ((⟨n, e.props⟩ : Screen) :: r.1, r.2)) := by
  cases w with
  | nil => simp at hfind
  | cons b w' =>
    conv_lhs => unfold processEntries
    rw [if_neg (by simp), hfind]
    cases hrec : processEntries rest ((b :: w').eraseP (fun child => child.route == e.name)) with
    | error msg => simp [ht, hrec, Except.map]
    | ok r => simp [ht, hrec, Except.map]

lemma consume_cons_skip (e : OrderEntry) (rest : List OrderEntry) (w : List RouteNode)
    (hfind : w.find? (fun child => child.route == e.name) = none) :
    consume (e :: rest) w = consume rest w := by
  cases w with
  | nil => rfl
  | cons b w' =>
    conv_lhs => unfold consume
    rw [if_neg (by simp), hfind]

lemma consume_cons_match (e : OrderEntry) (rest : List OrderEntry) (w : List RouteNode)
    (n : RouteNode) (hfind : w.find? (fun child => child.route == e.name) = some n) :
    consume (e :: rest) w = consume rest (w.eraseP (fun child => child.route == e.name)) := by
  cases w with
  | nil => simp at hfind
  | cons b w' =>
    conv_lhs => unfold consume
    rw [if_neg (by simp), hfind]

/-- The only error `processEntries` ever produces is the redirect error. -/
lemma processEntries_error_msg :
    ∀ (o : List OrderEntry) (w : List RouteNode) (m : String),
      processEntries o w = .error m →
      m = "Redirecting to a specific route is not supported yet." := by
  intro o
  induction o with
  | nil => intro w m h; simp [processEntries] at h
  | cons e rest ih =>
    intro w m h
    cases hfind : w.find? (fun child => child.route == e.name) with
    | none =>
      rw [processEntries_cons_skip e rest w hfind] at h
      exact ih w m h
    | some n =>
      cases ht : e.redirect.isTruthy with
      | false =>
        rw [processEntries_cons_emit e rest w n hfind ht] at h
        cases hrec : processEntries rest (w.eraseP (fun child => child.route == e.name)) with
        | error msg =>
          rw [hrec] at h
          simp only [Except.map] at h
          injection h with h2
          exact h2 ▸ ih _ _ hrec
        | ok r =>
          rw [hrec] at h
          simp [Except.map] at h
      | true =>
        cases hs : e.redirect.isString with
        | true =>
          rw [processEntries_cons_throw e rest w n hfind ht hs] at h
          injection h with h2
          exact h2.symm
        | false =>
          rw [processEntries_cons_drop e rest w n hfind ht hs] at h
          exact ih _ m h

/-- Processing a concatenation of entry lists is processing them in turn,
threading the working copy and appending the emitted descriptors. -/
lemma processEntries_append :
    ∀ (xs ys : List OrderEntry) (w : List RouteNode),
      processEntries (xs ++ ys) w =
        match processEntries xs w with
        | .error m => .error m
        | .ok r =>
          match processEntries ys r.2 with
          | .error m => .error m
          | .ok r2 => .ok (r.1 ++ r2.1, r2.2) := by
  intro xs
  induction xs with
  | nil =>
    intro ys w
    show processEntries ys w = match processEntries ys w with
      | .error m => .error m
      | .ok r2 => Except.ok (([] : List Screen) ++ r2.1, r2.2)
    cases h : processEntries ys w with
    | error m => rfl
    | ok r => simp
  | cons e xs ih =>
    intro ys w
    cases hfind : w.find? (fun child => child.route == e.name) with
    | none =>
      rw [List.cons_append, processEntries_cons_skip e _ w hfind,
          processEntries_cons_skip e xs w hfind, ih]
    | some n =>
      cases ht : e.redirect.isTruthy with
      | true =>
        cases hs : e.redirect.isString with
        | true =>
          rw [List.cons_append, processEntries_cons_throw e _ w n hfind ht hs,
              processEntries_cons_throw e xs w n hfind ht hs]
        | false =>
          rw [List.cons_append, processEntries_cons_drop e _ w n hfind ht hs,
              processEntries_cons_drop e xs w n hfind ht hs, ih]
      | false =>
        rw [List.cons_append, processEntries_cons_emit e _ w n hfind ht,
            processEntries_cons_emit e xs w n hfind ht, ih]
        cases hx : processEntries xs (w.eraseP (fun child => child.route == e.name)) with
        | error m => simp [Except.map]
        | ok r =>
          cases hy : processEntries ys r.2 with
          | error m => simp [Except.map, hy]
          | ok r2 => simp [Except.map, hy]

/-- On success, the final working copy is the one `consume` computes. -/
lemma processEntries_consume :
    ∀ (o : List OrderEntry) (w : List RouteNode) (out : List Screen) (rem : List RouteNode),
      processEntries o w = .ok (out, rem) → rem = consume o w := by
  intro o
  induction o with
  | nil =>
    intro w out rem h
    have h0 : processEntries [] w = .ok ([], w) := rfl
    rw [h0] at h
    injection h with h2
    rw [Prod.mk.injEq] at h2
    exact h2.2.symm
  | cons e rest ih =>
    intro w out rem h
    cases hfind : w.find? (fun child => child.route == e.name) with
    | none =>
      rw [processEntries_cons_skip e rest w hfind] at h
      rw [consume_cons_skip e rest w hfind]
      exact ih w out rem h
    | some n =>
      rw [consume_cons_match e rest w n hfind]
      cases ht : e.redirect.isTruthy with
      | true =>
        cases hs : e.redirect.isString with
        | true => rw [processEntries_cons_throw e rest w n hfind ht hs] at h; simp at h
        | false =>
          rw [processEntries_cons_drop e rest w n hfind ht hs] at h
          exact ih _ out rem h
      | false =>
        rw [processEntries_cons_emit e rest w n hfind ht] at h
        cases hrec : processEntries rest (w.eraseP (fun child => child.route == e.name)) with
        | error msg => rw [hrec] at h; simp [Except.map] at h
        | ok r =>
          rw [hrec] at h
          simp only [Except.map] at h
          injection h with h2
          rw [Prod.mk.injEq] at h2
          exact h2.2 ▸ ih _ r.1 r.2 (by rw [hrec])

/-- No node is invented: the emitted nodes together with the remaining working
copy form a sub-multiset of the initial working copy. -/
lemma processEntries_subperm :
    ∀ (o : List OrderEntry) (w : List RouteNode) (out : List Screen) (rem : List RouteNode),
      processEntries o w = .ok (out, rem) →
      ((out.map (fun s => s.route)) ++ rem).Subperm w := by
  intro o
  induction o with
  | nil =>
    intro w out rem h
    have h0 : processEntries [] w = .ok ([], w) := rfl
    rw [h0] at h
    injection h with h2
    rw [Prod.mk.injEq] at h2
    obtain ⟨h3, h4⟩ := h2
    subst h3; subst h4
    simp only [List.map_nil, List.nil_append]
    exact List.Subperm.refl w
  | cons e rest ih =>
    intro w out rem h
    cases hfind : w.find? (fun child => child.route == e.name) with
    | none =>
      rw [processEntries_cons_skip e rest w hfind] at h
      exact ih w out rem h
    | some n =>
      have hperm : w.Perm (n :: w.eraseP (fun child => child.route == e.name)) :=
        perm_cons_eraseP_of_find? hfind
      cases ht : e.redirect.isTruthy with
      | true =>
        cases hs : e.redirect.isString with
        | true => rw [processEntries_cons_throw e rest w n hfind ht hs] at h; simp at h
        | false =>
          rw [processEntries_cons_drop e rest w n hfind ht hs] at h
          exact (ih _ out rem h).trans (List.eraseP_sublist w).subperm
      | false =>
        rw [processEntries_cons_emit e rest w n hfind ht] at h
        cases hrec : processEntries rest (w.eraseP (fun child => child.route == e.name)) with
        | error msg => rw [hrec] at h; simp [Except.map] at h
        | ok r =>
          rw [hrec] at h
          simp only [Except.map] at h
          injection h with h2
          rw [Prod.mk.injEq] at h2
          obtain ⟨h3, h4⟩ := h2
          subst h3; subst h4
          simp only [List.map_cons, List.cons_append]
          exact (subperm_cons_of_subperm n (ih _ r.1 r.2 (by rw [hrec]))).trans
            hperm.symm.subperm

/-- With no truthy redirect in sight, no node is lost either: emitted nodes
plus remainder are a permutation of the initial working copy. -/
lemma processEntries_perm :
    ∀ (o : List OrderEntry) (w : List RouteNode) (out : List Screen) (rem : List RouteNode),
      (∀ e ∈ o, e.redirect.isTruthy = false) →
      processEntries o w = .ok (out, rem) →
      ((out.map (fun s => s.route)) ++ rem).Perm w := by
  intro o
  induction o with
  | nil =>
    intro w out rem _ h
    have h0 : processEntries [] w = .ok ([], w) := rfl
    rw [h0] at h
    injection h with h2
    rw [Prod.mk.injEq] at h2
    obtain ⟨h3, h4⟩ := h2
    subst h3; subst h4
    simp
  | cons e rest ih =>
    intro w out rem hred h
    cases hfind : w.find? (fun child => child.route == e.name) with
    | none =>
      rw [processEntries_cons_skip e rest w hfind] at h
      exact ih w out rem (fun x hx => hred x (List.mem_cons_of_mem e hx)) h
    | some n =>
      have ht : e.redirect.isTruthy = false := hred e (List.mem_cons_self e rest)
      have hperm : w.Perm (n :: w.eraseP (fun child => child.route == e.name)) :=
        perm_cons_eraseP_of_find? hfind
      rw [processEntries_cons_emit e rest w n hfind ht] at h
      cases hrec : processEntries rest (w.eraseP (fun child => child.route == e.name)) with
      | error msg => rw [hrec] at h; simp [Except.map] at h
      | ok r =>
        rw [hrec] at h
        simp only [Except.map] at h
        injection h with h2
        rw [Prod.mk.injEq] at h2
        obtain ⟨h3, h4⟩ := h2
        subst h3; subst h4
        simp only [List.map_cons, List.cons_append]
        exact ((ih _ r.1 r.2 (fun x hx => hred x (List.mem_cons_of_mem e hx))
          (by rw [hrec])).cons n).trans hperm.symm

/-- When sibling names are distinct and every entry names an existing child,
processing computes exactly the spec-side explicit part and remainder. -/
lemma processEntries_of_distinct :
    ∀ (o : List OrderEntry) (w : List RouteNode),
      ((w.map (fun c => c.route)).Nodup) →
      ((o.map (fun e => e.name)).Nodup) →
      (∀ e ∈ o, e.name ∈ w.map (fun c => c.route)) →
      (∀ e ∈ o, (e.redirect.isTruthy && e.redirect.isString) = false) →
      processEntries o w = .ok (explicitPart w o, remainingNodes w o) := by
  intro o
  induction o with
  | nil =>
    intro w _ _ _ _
    have h0 : processEntries [] w = .ok ([], w) := rfl
    rw [h0]
    unfold explicitPart remainingNodes
    simp
  | cons e rest ih =>
    intro w hwnd hond hmem hred
    have hmemE : e.name ∈ w.map (fun c => c.route) := hmem e (List.mem_cons_self e rest)
    have hfindSome : (w.find? (fun child => child.route == e.name)).isSome := by
      rw [List.find?_isSome]
      obtain ⟨c, hc, hcr⟩ := List.mem_map.mp hmemE
      exact ⟨c, hc, by simp [hcr]⟩
    obtain ⟨n, hfind⟩ := Option.isSome_iff_exists.mp hfindSome
    have hn : n.route = e.name := by
      have := List.find?_some hfind
      simpa using this
    obtain ⟨l1, l2, hw, he, -⟩ := find?_eraseP_decomp hfind
    have hmapw : w.map (fun c => c.route)
        = l1.map (fun c => c.route) ++ n.route :: l2.map (fun c => c.route) := by
      rw [hw]; simp
    have hmapw' : (w.eraseP (fun child => child.route == e.name)).map (fun c => c.route)
        = l1.map (fun c => c.route) ++ l2.map (fun c => c.route) := by
      rw [he]; simp
    have hnodup2 : (l1.map (fun c => c.route) ++ n.route :: l2.map (fun c => c.route)).Nodup :=
      hmapw ▸ hwnd
    have hnotin : n.route ∉ l1.map (fun c => c.route) ++ l2.map (fun c => c.route) :=
      (List.nodup_cons.mp (List.nodup_middle.mp hnodup2)).1
    rw [List.map_cons] at hond
    have hcons := List.nodup_cons.mp hond
    have hw'nd : ((w.eraseP (fun child => child.route == e.name)).map
        (fun c => c.route)).Nodup :=
      List.Nodup.sublist (List.Sublist.map _ (List.eraseP_sublist w)) hwnd
    have hnameNe : ∀ e' ∈ rest, e'.name ≠ e.name := by
      intro e' he' hEq
      exact hcons.1 (hEq ▸ List.mem_map_of_mem _ he')
    have hmem' : ∀ e' ∈ rest,
        e'.name ∈ (w.eraseP (fun child => child.route == e.name)).map (fun c => c.route) := by
      intro e' he'
      have hmemw : e'.name ∈ w.map (fun c => c.route) := hmem e' (List.mem_cons_of_mem e he')
      rw [hmapw] at hmemw
      rw [hmapw']
      rcases List.mem_append.mp hmemw with h1 | h2
      · exact List.mem_append.mpr (.inl h1)
      · rcases List.mem_cons.mp h2 with h3 | h4
        · exact absurd (h3.trans hn) (hnameNe e' he')
        · exact List.mem_append.mpr (.inr h4)
    have hfindstab : ∀ nm : String, nm ≠ e.name →
        (w.eraseP (fun child => child.route == e.name)).find? (fun c => c.route == nm)
          = w.find? (fun c => c.route == nm) := by
      intro nm hne
      have hpn : (n.route == nm) = false := by
        rw [hn]
        exact beq_eq_false_iff_ne.mpr (Ne.symm hne)
      rw [he, hw]
      exact (find?_middle_of_neg (p := fun c => c.route == nm) (a := n) hpn l1 l2).symm
    have hihres := ih (w.eraseP (fun child => child.route == e.name)) hw'nd hcons.2 hmem'
      (fun x hx => hred x (List.mem_cons_of_mem e hx))
    have hexp : explicitPart (w.eraseP (fun child => child.route == e.name)) rest
        = explicitPart w rest := by
      unfold explicitPart
      apply List.filterMap_congr
      intro x hx
      by_cases hxt : x.redirect.isTruthy = true
      · simp [hxt]
      · rw [hfindstab x.name (hnameNe x hx)]
    have hqn : (e.name == n.route) = true := by simp [hn]
    have hrouteNe : ∀ c ∈ l1.map (fun c => c.route) ++ l2.map (fun c => c.route),
        c ≠ e.name := by
      intro c hc hEq
      exact hnotin (hn ▸ hEq ▸ hc)
    have hrem : remainingNodes w (e :: rest)
        = remainingNodes (w.eraseP (fun child => child.route == e.name)) rest := by
      unfold remainingNodes
      rw [he, hw, List.filter_append, List.filter_append, List.filter_cons]
      rw [if_neg (by simp [List.any_cons, hqn])]
      have hside : ∀ l : List RouteNode,
          (∀ c ∈ l, c.route ≠ e.name) →
          l.filter (fun c => !((e :: rest).any (fun x => x.name == c.route)))
            = l.filter (fun c => !(rest.any (fun x => x.name == c.route))) := by
        intro l hl
        apply List.filter_congr
        intro c hc
        have : (e.name == c.route) = false :=
          beq_eq_false_iff_ne.mpr (fun hEq => hl c hc hEq.symm)
        simp [List.any_cons, this]
      rw [hside l1 (fun c hc h => hrouteNe c.route
            (List.mem_append.mpr (.inl (List.mem_map_of_mem _ hc))) h),
          hside l2 (fun c hc h => hrouteNe c.route
            (List.mem_append.mpr (.inr (List.mem_map_of_mem _ hc))) h)]
    cases ht : e.redirect.isTruthy with
    | true =>
      have hs : e.redirect.isString = false := by
        have := hred e (List.mem_cons_self e rest)
        rw [ht] at this
        simpa using this
      rw [processEntries_cons_drop e rest w n hfind ht hs, hihres]
      have hexpCons : explicitPart w (e :: rest) = explicitPart w rest := by
        unfold explicitPart
        rw [List.filterMap_cons]
        simp [ht]
      rw [hexpCons, ← hexp, hrem]
    | false =>
      rw [processEntries_cons_emit e rest w n hfind ht, hihres]
      simp only [Except.map]
      have hexpCons : explicitPart w (e :: rest)
          = (⟨n, e.props⟩ : Screen) :: explicitPart w rest := by
        unfold explicitPart
        rw [List.filterMap_cons, hfind]
        simp [ht]
      rw [hexpCons, ← hexp, hrem]

/-! Lemmas about the JS `Map` built by `createGetIdForRoute`. -/

lemma mapSet_any_name (m : List DynamicSegment) (s : DynamicSegment) (k : String) :
    (mapSet m s).any (fun d => d.name == k)
      = (m.any (fun d => d.name == k) || (s.name == k)) := by
  unfold mapSet
  by_cases hm : m.any (fun t => t.name == s.name) = true
  · rw [if_pos hm, List.any_map]
    cases hk : s.name == k with
    | true =>
      simp only [hk, Bool.or_true]
      rw [List.any_eq_true] at hm ⊢
      obtain ⟨t, htm, hts⟩ := hm
      refine ⟨t, htm, ?_⟩
      show ((if (t.name == s.name) = true then s else t).name == k) = true
      rw [if_pos hts]
      exact hk
    | false =>
      simp only [hk, Bool.or_false]
      cases hr : m.any (fun d => d.name == k) with
      | true =>
        rw [List.any_eq_true] at hr ⊢
        obtain ⟨t, htm, htk⟩ := hr
        refine ⟨t, htm, ?_⟩
        show ((if (t.name == s.name) = true then s else t).name == k) = true
        have hts : (t.name == s.name) = false := by
          cases hts : t.name == s.name with
          | false => rfl
          | true =>
            have h1 : t.name = s.name := by simpa using hts
            rw [← h1, htk] at hk
            cases hk
        rw [if_neg (by simp [hts])]
        exact htk
      | false =>
        rw [List.any_eq_false] at hr ⊢
        intro t htm
        show ¬ ((if (t.name == s.name) = true then s else t).name == k) = true
        by_cases hts : (t.name == s.name) = true
        · rw [if_pos hts]; simp [hk]
        · rw [if_neg hts]; exact hr t htm
  · rw [if_neg hm, List.any_append]
    simp [List.any_cons]

lemma foldl_mapSet_any (k : String) :
    ∀ (dyn acc : List DynamicSegment),
      (dyn.foldl mapSet acc).any (fun d => d.name == k)
        = (acc.any (fun d => d.name == k) || dyn.any (fun d => d.name == k)) := by
  intro dyn
  induction dyn with
  | nil => intro acc; simp
  | cons d dyn ih =>
    intro acc
    rw [List.foldl_cons, ih (mapSet acc d), mapSet_any_name, List.any_cons, Bool.or_assoc]

/-- Inserting all segments into the `Map` leaves the set of names unchanged. -/
lemma includeOf_any (dyn : List DynamicSegment) (k : String) :
    (includeOf dyn).any (fun d => d.name == k) = dyn.any (fun d => d.name == k) := by
  have h := foldl_mapSet_any k dyn []
  simpa [includeOf] using h

lemma foldl_mapSet_of_nodup :
    ∀ (dyn acc : List DynamicSegment),
      (((acc ++ dyn).map (fun d => d.name)).Nodup) → dyn.foldl mapSet acc = acc ++ dyn := by
  intro dyn
  induction dyn with
  | nil => intro acc _; simp
  | cons d dyn ih =>
    intro acc hnd
    rw [List.foldl_cons]
    have hmid : (acc.map (fun d => d.name)
        ++ d.name :: dyn.map (fun d => d.name)).Nodup := by
      rw [List.map_append, List.map_cons] at hnd
      exact hnd
    have hnotin : d.name ∉ acc.map (fun d => d.name) ++ dyn.map (fun d => d.name) :=
      (List.nodup_cons.mp (List.nodup_middle.mp hmid)).1
    have hdn : acc.any (fun t => t.name == d.name) = false := by
      rw [List.any_eq_false]
      intro t ht hEq
      have h1 : t.name = d.name := by simpa using hEq
      exact hnotin (List.mem_append.mpr (.inl (h1 ▸ List.mem_map_of_mem _ ht)))
    have hms : mapSet acc d = acc ++ [d] := by
      unfold mapSet
      rw [if_neg (by simp [hdn])]
    rw [hms, ih (acc ++ [d]) (by rw [← List.append_cons]; exact hnd), ← List.append_cons]

/-- With duplicate-free segment names the `Map` preserves the declared list. -/
lemma includeOf_eq_self (dyn : List DynamicSegment)
    (h : (dyn.map (fun d => d.name)).Nodup) : includeOf dyn = dyn := by
  have h2 := foldl_mapSet_of_nodup dyn [] (by simpa using h)
  simpa [includeOf] using h2

/-! Lemmas about JS property assignment on options objects. -/

lemma getOption_mapWrite (k : String) (v : OptionValue) :
    ∀ (o : OptionsObject), o.any (fun p => p.1 == k) = true →
      getOption (o.map (fun p => if p.1 == k then (p.1, v) else p)) k = some v := by
  intro o
  induction o with
  | nil => intro h; simp at h
  | cons pr o ih =>
    intro h
    rw [List.map_cons]
    by_cases hp : (pr.1 == k) = true
    · rw [if_pos hp]
      unfold getOption
      rw [List.find?_cons_of_pos (p := fun r : String × OptionValue => r.1 == k)
        (a := (pr.1, v)) _ hp]
      simp
    · rw [if_neg hp]
      have h' : o.any (fun p => p.1 == k) = true := by
        rw [List.any_cons] at h
        rcases Bool.or_eq_true_iff.mp h with h1 | h1
        · exact absurd h1 hp
        · exact h1
      unfold getOption
      rw [List.find?_cons_of_neg (p := fun r : String × OptionValue => r.1 == k) _ hp]
      exact ih h'

lemma getOption_setOption_self (o : OptionsObject) (k : String) (v : OptionValue) :
    getOption (setOption o k v) k = some v := by
  unfold setOption
  by_cases h : o.any (fun p => p.1 == k) = true
  · rw [if_pos h]
    exact getOption_mapWrite k v o h
  · rw [if_neg h]
    have hfalse : o.any (fun p => p.1 == k) = false := by
      revert h; cases o.any (fun p => p.1 == k) <;> simp
    have hnone : o.find? (fun p => p.1 == k) = none := by
      rw [List.find?_eq_none]
      intro x hx hxk
      rw [List.any_eq_false] at hfalse
      exact hfalse x hx hxk
    unfold getOption
    rw [List.find?_append, hnone]
    simp [List.find?]

lemma getOption_mapWrite_ne (k : String) (v : OptionValue) (q : String) (hne : q ≠ k) :
    ∀ (o : OptionsObject),
      getOption (o.map (fun p => if p.1 == k then (p.1, v) else p)) q = getOption o q := by
  intro o
  induction o with
  | nil => rfl
  | cons pr o ih =>
    rw [List.map_cons]
    by_cases hp : (pr.1 == q) = true
    · have hpk : (pr.1 == k) = false := by
        have h1 : pr.1 = q := by simpa using hp
        exact beq_eq_false_iff_ne.mpr (h1 ▸ hne)
      rw [if_neg (by simp [hpk])]
      unfold getOption
      rw [List.find?_cons_of_pos (p := fun r : String × OptionValue => r.1 == q) _ hp,
          List.find?_cons_of_pos (p := fun r : String × OptionValue => r.1 == q) _ hp]
    · by_cases hpk : (pr.1 == k) = true
      · rw [if_pos hpk]
        unfold getOption
        rw [List.find?_cons_of_neg (p := fun r : String × OptionValue => r.1 == q)
          (a := (pr.1, v)) _ hp]
        rw [List.find?_cons_of_neg (p := fun r : String × OptionValue => r.1 == q)
          (a := pr) _ hp]
        exact ih
      · rw [if_neg hpk]
        unfold getOption
        rw [List.find?_cons_of_neg (p := fun r : String × OptionValue => r.1 == q)
          (a := pr) _ hp, List.find?_cons_of_neg
          (p := fun r : String × OptionValue => r.1 == q) (a := pr) _ hp]
        exact ih

lemma getOption_setOption_ne (o : OptionsObject) (k : String) (v : OptionValue)
    (q : String) (hne : q ≠ k) : getOption (setOption o k v) q = getOption o q := by
  unfold setOption
  by_cases h : o.any (fun p => p.1 == k) = true
  · rw [if_pos h]
    exact getOption_mapWrite_ne k v q hne o
  · rw [if_neg h]
    have hlast : List.find? (fun p => p.1 == q) [(k, v)] = none := by
      rw [List.find?_eq_none]
      intro x hx
      rcases List.mem_cons.mp hx with h1 | h1
      · subst h1; simp; exact fun hEq => hne hEq.symm
      · simp at h1
    unfold getOption
    rw [List.find?_append, hlast, Option.or_none]

/-! Lemmas about the component cache. -/

lemma getQualifiedRouteComponent_node (store : QualifiedStore) (v : RouteRef)
    (h : storeWF store) : ((getQualifiedRouteComponent store v).1).node = v := by
  unfold getQualifiedRouteComponent
  cases hf : store.find? (fun p => p.1 == v) with
  | none => rfl
  | some p =>
    have h1 := h p (List.mem_of_find?_eq_some hf)
    have h2 : p.1 = v := by simpa using List.find?_some hf
    simp only
    rw [h1, h2]

lemma getQualifiedRouteComponent_wf (store : QualifiedStore) (v : RouteRef)
    (h : storeWF store) : storeWF (getQualifiedRouteComponent store v).2 := by
  unfold getQualifiedRouteComponent
  cases hf : store.find? (fun p => p.1 == v) with
  | none =>
    intro p hp
    rcases List.mem_cons.mp hp with h1 | h1
    · subst h1; rfl
    · exact h p h1
  | some p => exact h

lemma getQualifiedRouteComponent_idem (store : QualifiedStore) (v : RouteRef) :
    getQualifiedRouteComponent (getQualifiedRouteComponent store v).2 v
      = getQualifiedRouteComponent store v := by
  unfold getQualifiedRouteComponent
  cases hf : store.find? (fun p => p.1 == v) with
  | some p => rw [hf]
  | none =>
    rw [List.find?_cons_of_pos _ (by simp)]

lemma map_route_wrap (l : List RouteNode) :
    ((l.map (fun route => (⟨route, {}⟩ : Screen))).map (fun s => s.route)) = l := by
  induction l with
  | nil => rfl
  | cons a l ih => simp [ih]

/-- The no-order branch of `getSortedChildren`, shared by `order = none` and
`order = some []`. -/
lemma getSortedChildren_no_order (children : List RouteNode) (order : Option (List OrderEntry))
    (irn : Option String) (h : order = none ∨ order = some []) :
    getSortedChildren children order irn
      = (jsSort (sortRoutesWithInitial irn) children,
         .ok ((jsSort (sortRoutesWithInitial irn) children).map (fun route => ⟨route, {}⟩))) := by
  rcases h with h | h <;> subst h <;> rfl

/-- The order branch of `getSortedChildren` for a non-empty order list. -/
lemma getSortedChildren_with_order (children : List RouteNode) (o : List OrderEntry)
    (irn : Option String) (ho : ¬(o.isEmpty = true)) :
    (getSortedChildren children (some o) irn).2
      = match processEntries o children with
        | .error msg => .error msg
        | .ok r => .ok (r.1 ++ (jsSort (sortRoutesWithInitial irn) r.2).map
            (fun route => ⟨route, {}⟩)) := by
  have h0 : getSortedChildren children (some o) irn
      = if o.isEmpty then
          (jsSort (sortRoutesWithInitial irn) children,
            .ok ((jsSort (sortRoutesWithInitial irn) children).map (fun route => ⟨route, {}⟩)))
        else
          (children,
            match processEntries o children with
            | .error msg => .error msg
            | .ok (out, rem) =>
              .ok (out ++ (jsSort (sortRoutesWithInitial irn) rem).map
                    (fun route => ⟨route, {}⟩))) := rfl
  rw [h0, if_neg ho]
  cases processEntries o children with
  | error m => rfl
  | ok r => rfl

/-- C1 (amended). The claim as frozen asserts the reconciled output is always
a permutation of `children`; a matched entry with a truthy non-string redirect
consumes its node without emitting it, so the universally quantified form
fails (see the counterexample). What holds: the output nodes are a
sub-permutation of `children` (nothing invented, nothing duplicated beyond
duplicates already in `children`), the permutation holds whenever no order
entry carries a truthy redirect, and distinct sibling names give a
duplicate-free output. -/
theorem claimC1_amended :
    ∀ (children : List RouteNode) (order : Option (List OrderEntry)) (irn : Option String)
      (out : List Screen),
      (getSortedChildren children order irn).2 = .ok out →
      ((out.map (fun s => s.route)).Subperm children
        ∧ ((∀ e ∈ order.getD [], e.redirect.isTruthy = false) →
            (out.map (fun s => s.route)).Perm children)
        ∧ ((children.map (fun c => c.route)).Nodup → (out.map (fun s => s.route)).Nodup)) := by
  intro children order irn out h
  have hcommon : ∀ (hno : order = none ∨ order = some []),
      (out.map (fun s => s.route)).Subperm children
        ∧ ((∀ e ∈ order.getD [], e.redirect.isTruthy = false) →
            (out.map (fun s => s.route)).Perm children)
        ∧ ((children.map (fun c => c.route)).Nodup → (out.map (fun s => s.route)).Nodup) := by
    intro hno
    rw [getSortedChildren_no_order children order irn hno] at h
    injection h with h2
    subst h2
    have hperm : (((jsSort (sortRoutesWithInitial irn) children).map
        (fun route => (⟨route, {}⟩ : Screen))).map (fun s => s.route)).Perm children := by
      rw [map_route_wrap]
      exact jsSort_perm _ children
    exact ⟨hperm.subperm, fun _ => hperm,
      fun hnd => hperm.symm.nodup (List.Nodup.of_map _ hnd)⟩
  cases order with
  | none => exact hcommon (.inl rfl)
  | some o =>
    by_cases ho : o.isEmpty = true
    · exact hcommon (.inr (by rw [List.isEmpty_iff.mp ho]))
    · rw [getSortedChildren_with_order children o irn ho] at h
      cases hpe : processEntries o children with
      | error m => rw [hpe] at h; simp at h
      | ok r =>
        rw [hpe] at h
        injection h with h2
        subst h2
        have hsub := processEntries_subperm o children r.1 r.2 (by rw [hpe])
        have hmap : ((r.1 ++ (jsSort (sortRoutesWithInitial irn) r.2).map
              (fun route => (⟨route, {}⟩ : Screen))).map (fun s => s.route))
            = r.1.map (fun s => s.route) ++ jsSort (sortRoutesWithInitial irn) r.2 := by
          rw [List.map_append, map_route_wrap]
        have hp2 : (r.1.map (fun s => s.route) ++ jsSort (sortRoutesWithInitial irn) r.2).Perm
            (r.1.map (fun s => s.route) ++ r.2) :=
          List.Perm.append_left _ (jsSort_perm _ r.2)
        refine ⟨?_, ?_, ?_⟩
        · rw [hmap]
          exact hp2.subperm.trans hsub
        · intro hred
          rw [hmap]
          exact hp2.trans (processEntries_perm o children r.1 r.2
            (by simpa using hred) (by rw [hpe]))
        · intro hnd
          rw [hmap]
          exact nodup_of_subperm (hp2.subperm.trans hsub) (List.Nodup.of_map _ hnd)

/-- C1 counterexample: `children = [nA]` and a single order entry naming "a"
with a truthy non-string redirect succeed with an empty output, so the set of
output nodes does not equal the set of children — `nA` is lost. -/
theorem claimC1_counterexample :
    (getSortedChildren [nA] (some [redirectDropEntry]) none).2 = .ok []
      ∧ nA ∈ [nA] ∧ ¬ nA ∈ (([] : List Screen).map (fun s => s.route)) :=
  ⟨rfl, by simp, by simp⟩

/-- C1 witness: children `[nA]` ordered by the single entry naming "a". -/
theorem claimC1_wit :
    ((([(⟨nA, {}⟩ : Screen)]).map (fun s => s.route)).Subperm [nA])
      ∧ ((([(⟨nA, {}⟩ : Screen)]).map (fun s => s.route)).Perm [nA])
      ∧ ((([(⟨nA, {}⟩ : Screen)]).map (fun s => s.route)).Nodup) :=
  ⟨(claimC1_amended [nA] (some [{ name := "a" }]) none [⟨nA, {}⟩] rfl).1,
   (claimC1_amended [nA] (some [{ name := "a" }]) none [⟨nA, {}⟩] rfl).2.1 (by decide),
   (claimC1_amended [nA] (some [{ name := "a" }]) none [⟨nA, {}⟩] rfl).2.2 (by decide)⟩

/-- C2: when every order entry names an existing distinct child (sibling
names distinct, entry names distinct and present) and no entry carries a
truthy string redirect, the output is exactly the entry sequence (redirect
entries dropped, each other entry as its matched node with the entry's props)
followed by the unnamed children sorted by the comparator with empty props. -/
theorem claimC2 :
    ∀ (children : List RouteNode) (order : List OrderEntry) (irn : Option String),
      ((children.map (fun c => c.route)).Nodup) →
      ((order.map (fun e => e.name)).Nodup) →
      (∀ e ∈ order, e.name ∈ children.map (fun c => c.route)) →
      (∀ e ∈ order, (e.redirect.isTruthy && e.redirect.isString) = false) →
      (getSortedChildren children (some order) irn).2
        = .ok (explicitPart children order
            ++ (jsSort (sortRoutesWithInitial irn) (remainingNodes children order)).map
                (fun route => ⟨route, {}⟩)) := by
  intro children order irn h1 h2 h3 h4
  by_cases ho : order.isEmpty = true
  · have h0 : order = [] := List.isEmpty_iff.mp ho
    subst h0
    rw [getSortedChildren_no_order children (some []) irn (.inr rfl)]
    unfold explicitPart remainingNodes
    simp
  · rw [getSortedChildren_with_order children order irn ho,
       processEntries_of_distinct order children h1 h2 h3 h4]

/-- C2 witness: children `[nA, nB, nC]`, order `[{name := "b"}]`, initial
route name "c". -/
theorem claimC2_wit :
    (getSortedChildren [nA, nB, nC] (some [{ name := "b" }]) (some "c")).2
      = .ok (explicitPart [nA, nB, nC] [{ name := "b" }]
          ++ (jsSort (sortRoutesWithInitial (some "c"))
              (remainingNodes [nA, nB, nC] [{ name := "b" }])).map
                (fun route => ⟨route, {}⟩)) :=
  claimC2 [nA, nB, nC] [{ name := "b" }] (some "c") (by decide) (by decide)
    (by decide) (by decide)

lemma getSortedChildren_fst (children : List RouteNode) (o : List OrderEntry)
    (irn : Option String) (ho : ¬(o.isEmpty = true)) :
    (getSortedChildren children (some o) irn).1 = children := by
  have h0 : getSortedChildren children (some o) irn
      = if o.isEmpty then
          (jsSort (sortRoutesWithInitial irn) children,
            .ok ((jsSort (sortRoutesWithInitial irn) children).map (fun route => ⟨route, {}⟩)))
        else
          (children,
            match processEntries o children with
            | .error msg => .error msg
            | .ok (out, rem) =>
              .ok (out ++ (jsSort (sortRoutesWithInitial irn) rem).map
                    (fun route => ⟨route, {}⟩))) := rfl
  rw [h0, if_neg ho]

/-- C3. First part: whenever some order entry that matches a child at its
processing point (the working copy `consume` leaves for it holds a node with
its name) carries a non-empty string redirect, reconciliation ends in the
fatal redirect error, whatever the surrounding entries are. Second part: an
entry with a truthy non-string redirect is excluded from the output and its
matched node is consumed — with distinct sibling names, the node appears
nowhere in a successful output. -/
theorem claimC3 :
    (∀ (children : List RouteNode) (pre post : List OrderEntry) (irn : Option String)
       (e : OrderEntry) (s : String),
       e.redirect = .str s → s ≠ "" →
       ((consume pre children).find? (fun c => c.route == e.name)).isSome →
       (getSortedChildren children (some (pre ++ e :: post)) irn).2
         = .error "Redirecting to a specific route is not supported yet.")
    ∧ (∀ (children : List RouteNode) (pre post : List OrderEntry) (irn : Option String)
       (e : OrderEntry) (n : RouteNode) (out : List Screen),
       e.redirect.isTruthy = true → e.redirect.isString = false →
       (consume pre children).find? (fun c => c.route == e.name) = some n →
       ((children.map (fun c => c.route)).Nodup) →
       (getSortedChildren children (some (pre ++ e :: post)) irn).2 = .ok out →
       ¬ n ∈ out.map (fun s => s.route)) := by
  constructor
  · intro children pre post irn e s hstr hne hfind
    have ho : ¬ ((pre ++ e :: post).isEmpty = true) := by simp [List.isEmpty_iff]
    rw [getSortedChildren_with_order children (pre ++ e :: post) irn ho,
        processEntries_append pre (e :: post) children]
    cases hpre : processEntries pre children with
    | error m =>
      rw [processEntries_error_msg pre children m hpre]
    | ok r =>
      have hcons : r.2 = consume pre children :=
        processEntries_consume pre children r.1 r.2 (by rw [hpre])
      obtain ⟨n, hfindn⟩ := Option.isSome_iff_exists.mp hfind
      have ht : e.redirect.isTruthy = true := by
        rw [hstr]
        show (s != "") = true
        exact bne_iff_ne.mpr hne
      have hs2 : e.redirect.isString = true := by rw [hstr]; rfl
      have hstep : processEntries (e :: post) r.2
          = .error "Redirecting to a specific route is not supported yet." := by
        rw [hcons]
        exact processEntries_cons_throw e post (consume pre children) n hfindn ht hs2
      simp only [hstep]
  · intro children pre post irn e n out ht hs hfindn hnd h
    have ho : ¬ ((pre ++ e :: post).isEmpty = true) := by simp [List.isEmpty_iff]
    rw [getSortedChildren_with_order children (pre ++ e :: post) irn ho,
        processEntries_append pre (e :: post) children] at h
    cases hpre : processEntries pre children with
    | error m => rw [hpre] at h; simp at h
    | ok r =>
      rw [hpre] at h
      have hcons : r.2 = consume pre children :=
        processEntries_consume pre children r.1 r.2 (by rw [hpre])
      have hstep : processEntries (e :: post) r.2
          = processEntries post
              ((consume pre children).eraseP (fun c => c.route == e.name)) := by
        rw [hcons]
        exact processEntries_cons_drop e post (consume pre children) n hfindn ht hs
      simp only [hstep] at h
      cases hpost : processEntries post
          ((consume pre children).eraseP (fun c => c.route == e.name)) with
      | error m => rw [hpost] at h; simp at h
      | ok r2 =>
        rw [hpost] at h
        have hout : (Except.ok
            ((r.1 ++ r2.1)
              ++ (jsSort (sortRoutesWithInitial irn) r2.2).map
                  (fun route => (⟨route, {}⟩ : Screen)))
            : Except String (List Screen)) = .ok out := h
        injection hout with hout2
        subst hout2
        -- the facts
        have hchild : children.Nodup := List.Nodup.of_map _ hnd
        have hsubPre := processEntries_subperm pre children r.1 r.2 (by rw [hpre])
        have hnodupPre : (r.1.map (fun s => s.route) ++ r.2).Nodup :=
          nodup_of_subperm hsubPre hchild
        have hnmem : n ∈ r.2 := by
          rw [hcons]
          exact List.mem_of_find?_eq_some hfindn
        obtain ⟨hn1, hn2, hdisj⟩ := List.nodup_append.mp hnodupPre
        have hnotPre : ¬ n ∈ r.1.map (fun s => s.route) := fun hmem => hdisj hmem hnmem
        -- n is gone from the erased copy
        obtain ⟨l1, l2, hw, he, -⟩ := find?_eraseP_decomp hfindn
        have hr2nodup : (consume pre children).Nodup := hcons ▸ hn2
        have hnotErase : ¬ n ∈ (consume pre children).eraseP
            (fun c => c.route == e.name) := by
          rw [he]
          rw [hw] at hr2nodup
          exact (List.nodup_cons.mp (List.nodup_middle.mp hr2nodup)).1
        have hsubPost := processEntries_subperm post
          ((consume pre children).eraseP (fun c => c.route == e.name)) r2.1 r2.2
          (by rw [hpost])
        have hnotPost1 : ¬ n ∈ r2.1.map (fun s => s.route) := fun hmem =>
          hnotErase (hsubPost.subset (List.mem_append.mpr (.inl hmem)))
        have hnotPost2 : ¬ n ∈ r2.2 := fun hmem =>
          hnotErase (hsubPost.subset (List.mem_append.mpr (.inr hmem)))
        -- assemble
        rw [List.map_append, List.map_append, map_route_wrap]
        intro hmem
        rcases List.mem_append.mp hmem with hmem1 | hmem2
        · rcases List.mem_append.mp hmem1 with hmem3 | hmem4
          · exact hnotPre hmem3
          · exact hnotPost1 hmem4
        · exact hnotPost2 ((jsSort_perm (sortRoutesWithInitial irn) r2.2).mem_iff.mp hmem2)

/-- C3 witness: part one at children `[nA, nB]` with `pre = [{name := "a"}]`
and the redirecting entry naming "b"; part two at children `[nA, nB]` with the
entry naming "a" carrying a non-string truthy redirect. -/
theorem claimC3_wit :
    ((getSortedChildren [nA, nB]
        (some ([{ name := "a" }] ++ ({ name := "b", redirect := .str "/x" } : OrderEntry) :: []))
        none).2
      = .error "Redirecting to a specific route is not supported yet.")
    ∧ ¬ nA ∈ ([(⟨nB, {}⟩ : Screen)]).map (fun s => s.route) :=
  ⟨claimC3.1 [nA, nB] [{ name := "a" }] [] none { name := "b", redirect := .str "/x" } "/x"
      rfl (by decide) (by decide),
   claimC3.2 [nA, nB] [] [] none { name := "a", redirect := .other true } nA [⟨nB, {}⟩]
      rfl rfl rfl (by decide) rfl⟩

/-- C9 (amended). The claim as frozen asserts the caller's `children` array
is left unchanged in the same order even when `order` is absent or empty; but
the no-order branch runs `children.sort(...)`, which reorders the caller's
array in place (see the counterexample). What holds: the array always keeps
exactly the same elements (a permutation), and with a non-empty order list it
is left completely untouched. -/
theorem claimC9_amended :
    ∀ (children : List RouteNode) (order : Option (List OrderEntry)) (irn : Option String),
      (((getSortedChildren children order irn).1).Perm children)
      ∧ (∀ o, order = some o → o ≠ [] →
          (getSortedChildren children order irn).1 = children) := by
  intro children order irn
  cases order with
  | none =>
    rw [getSortedChildren_no_order children none irn (.inl rfl)]
    exact ⟨jsSort_perm _ children, fun o h => Option.noConfusion h⟩
  | some o =>
    by_cases ho : o.isEmpty = true
    · have h0 : o = [] := List.isEmpty_iff.mp ho
      subst h0
      rw [getSortedChildren_no_order children (some []) irn (.inr rfl)]
      refine ⟨jsSort_perm _ children, fun o' h1 h2 => ?_⟩
      injection h1 with h3
      exact absurd h3.symm h2
    · rw [getSortedChildren_fst children o irn ho]
      exact ⟨List.Perm.refl children, fun _ _ _ => rfl⟩

/-- C9 counterexample: with no ordering config and children `[nB, nA]`, the
caller's array is sorted in place to `[nA, nB]` — same elements, different
order, refuting "unchanged, same order". -/
theorem claimC9_counterexample :
    (getSortedChildren [nB, nA] none none).1 = [nA, nB] ∧ [nA, nB] ≠ [nB, nA] :=
  ⟨rfl, by simp [nA, nB]⟩

/-- C9 witness: a non-empty order list leaves children untouched. -/
theorem claimC9_wit :
    ((getSortedChildren [nA] (some [{ name := "a" }]) none).1).Perm [nA]
      ∧ (getSortedChildren [nA] (some [{ name := "a" }]) none).1 = [nA] :=
  ⟨(claimC9_amended [nA] (some [{ name := "a" }]) none).1,
   (claimC9_amended [nA] (some [{ name := "a" }]) none).2 [{ name := "a" }] rfl (by simp)⟩

/-- C10: an order entry whose redirect is the empty string is treated as
having no redirect: the matched entry neither throws nor is dropped — the
processing step emits the normal descriptor carrying the entry's props and
recurses on the working copy without the matched node, and a reconciliation
ordered by that entry alone returns that descriptor first, followed by the
rest sorted. -/
theorem claimC10 :
    ∀ (e : OrderEntry) (rest : List OrderEntry) (w : List RouteNode) (n : RouteNode)
      (irn : Option String),
      e.redirect = .str "" →
      w.find? (fun c => c.route == e.name) = some n →
      (processEntries (e :: rest) w
        = (processEntries rest (w.eraseP (fun c => c.route == e.name))).map
            (fun r => ((⟨n, e.props⟩ : Screen) :: r.1, r.2)))
      ∧ ((getSortedChildren w (some [e]) irn).2
          = .ok ((⟨n, e.props⟩ : Screen)
              :: (jsSort (sortRoutesWithInitial irn)
                  (w.eraseP (fun c => c.route == e.name))).map
                  (fun route => ⟨route, {}⟩))) := by
  intro e rest w n irn hstr hfind
  have ht : e.redirect.isTruthy = false := by rw [hstr]; rfl
  constructor
  · exact processEntries_cons_emit e rest w n hfind ht
  · rw [getSortedChildren_with_order w [e] irn (by simp),
        processEntries_cons_emit e [] w n hfind ht]
    rfl

/-- C10 witness: the empty-string-redirect entry naming "a" against `[nA]`. -/
theorem claimC10_wit :
    (processEntries [emptyRedirectEntry] [nA]
        = (processEntries []
            (([nA]).eraseP (fun c => c.route == emptyRedirectEntry.name))).map
            (fun r => ((⟨nA, emptyRedirectEntry.props⟩ : Screen) :: r.1, r.2)))
      ∧ ((getSortedChildren [nA] (some [emptyRedirectEntry]) none).2
          = .ok ((⟨nA, emptyRedirectEntry.props⟩ : Screen)
              :: (jsSort (sortRoutesWithInitial none)
                  (([nA]).eraseP (fun c => c.route == emptyRedirectEntry.name))).map
                  (fun route => ⟨route, {}⟩))) :=
  claimC10 emptyRedirectEntry [] [nA] nA none rfl rfl

/-- C7: the component cache is keyed by reference identity. Calling the
adapter twice with the same reference returns the identical component (and
leaves the cache as is); calling it with a different reference — even one
whose RouteNode is structurally identical — yields a distinct component. -/
theorem claimC7 :
    ∀ (store : QualifiedStore) (v v' : RouteRef),
      storeWF store →
      (getQualifiedRouteComponent (getQualifiedRouteComponent store v).2 v
          = ((getQualifiedRouteComponent store v).1, (getQualifiedRouteComponent store v).2))
      ∧ (v ≠ v' →
          ¬ (getQualifiedRouteComponent ((getQualifiedRouteComponent store v).2) v').1
              = (getQualifiedRouteComponent store v).1) := by
  intro store v v' hwf
  constructor
  · rw [getQualifiedRouteComponent_idem store v]
  · intro hne heq
    have h1 : ((getQualifiedRouteComponent
        ((getQualifiedRouteComponent store v).2) v').1).node = v' :=
      getQualifiedRouteComponent_node _ v' (getQualifiedRouteComponent_wf store v hwf)
    have h2 : ((getQualifiedRouteComponent store v).1).node = v :=
      getQualifiedRouteComponent_node store v hwf
    rw [heq, h2] at h1
    exact hne h1

/-- C7 witness: references 1 and 2 against the empty cache. -/
theorem claimC7_wit :
    (getQualifiedRouteComponent (getQualifiedRouteComponent [] 1).2 1
        = ((getQualifiedRouteComponent [] 1).1, (getQualifiedRouteComponent [] 1).2))
      ∧ ¬ (getQualifiedRouteComponent ((getQualifiedRouteComponent [] 1).2) 2).1
          = (getQualifiedRouteComponent [] 1).1 :=
  ⟨(claimC7 [] 1 2 (fun p hp => absurd hp (List.not_mem_nil p))).1,
   (claimC7 [] 1 2 (fun p hp => absurd hp (List.not_mem_nil p))).2 (by decide)⟩

/-- C8: for a generated route the built options always carry the forced
tab-bar-hidden and drawer-hidden fields, whatever the static and override
option objects contain. -/
theorem claimC8 :
    ∀ (route : RouteNode) (staticResult dynamicResult : OptionsObject),
      route.generated = true →
      (getOption (routeToScreenOptions route staticResult dynamicResult) "tabBarButton"
          = some .tabBarButtonHidden)
      ∧ (getOption (routeToScreenOptions route staticResult dynamicResult) "drawerItemStyle"
          = some .drawerItemStyleHidden) := by
  intro route s d hg
  simp only [routeToScreenOptions]
  rw [if_pos hg]
  constructor
  · rw [getOption_setOption_ne _ _ _ _ (by decide)]
    exact getOption_setOption_self _ _ _
  · exact getOption_setOption_self _ _ _

/-- C8 witness: a generated route with overrides that try to set both forced
fields to other values. -/
theorem claimC8_wit :
    (getOption (routeToScreenOptions genRoute [("tabBarButton", .value 7)]
        [("drawerItemStyle", .value 8)]) "tabBarButton" = some .tabBarButtonHidden)
      ∧ (getOption (routeToScreenOptions genRoute [("tabBarButton", .value 7)]
          [("drawerItemStyle", .value 8)]) "drawerItemStyle"
            = some .drawerItemStyleHidden) :=
  claimC8 genRoute [("tabBarButton", .value 7)] [("drawerItemStyle", .value 8)] rfl

lemma segmentFor_eq_amended (params : Params) (d : DynamicSegment) :
    segmentFor params d = amendedSegmentFor params d := by
  unfold segmentFor amendedSegmentFor
  cases hv : getParam params d.name with
  | none => rfl
  | some v =>
    cases v with
    | str s =>
      by_cases hs : s = ""
      · subst hs; rfl
      · show (if (s != "") = true then s
            else if d.deep = true then "[..." ++ d.name ++ "]" else "[" ++ d.name ++ "]")
          = (if s ≠ "" then s
            else if d.deep = true then "[..." ++ d.name ++ "]" else "[" ++ d.name ++ "]")
        rw [if_pos (bne_iff_ne.mpr hs), if_pos hs]
    | arr l =>
      by_cases hl : l = []
      · subst hl; rfl
      · show (if l.length > 0 then String.intercalate "/" l
            else if d.deep = true then "[..." ++ d.name ++ "]" else "[" ++ d.name ++ "]")
          = (if l ≠ [] then String.intercalate "/" l
            else if d.deep = true then "[..." ++ d.name ++ "]" else "[" ++ d.name ++ "]")
        rw [if_pos (List.length_pos.mpr hl), if_pos hl]

lemma createGetIdForRoute_non_leaf (route : RouteNode) (params : Params)
    (h : route.children ≠ []) :
    createGetIdForRoute route params
      = String.intercalate "/" ((includeOf (route.dynamic.getD [])).map (segmentFor params)) := by
  have hch : ¬ ((route.children.length == 0) = true) := by
    simp [List.length_eq_zero, h]
  simp only [createGetIdForRoute]
  rw [if_neg hch]
  rfl

lemma createGetIdForRoute_leaf (route : RouteNode) (params : Params)
    (h : route.children = []) :
    createGetIdForRoute route params
      = (if (residualPairs route params).length != 0 then
           (if (String.intercalate "/" ((includeOf (route.dynamic.getD [])).map
                 (segmentFor params))) != ""
            then String.intercalate "/" ((includeOf (route.dynamic.getD [])).map
                 (segmentFor params))
            else route.contextKey)
             ++ "?" ++ String.intercalate "&" (residualPairs route params)
         else String.intercalate "/" ((includeOf (route.dynamic.getD [])).map
               (segmentFor params))) := by
  have hch : (route.children.length == 0) = true := by simp [h]
  simp only [createGetIdForRoute]
  rw [if_pos hch]
  have hsp : (((params.map (fun p => p.1)).filter
        (fun k => !((includeOf (route.dynamic.getD [])).any (fun d => d.name == k)))).filter
        (fun k => k != "screen" && k != "params")).map
        (fun k => k ++ "=" ++ (((getParam params k).map ParamValue.toJSString).getD "undefined"))
      = residualPairs route params := by
    unfold residualPairs residualKeys
    congr 1
    rw [List.filter_filter]
    apply List.filter_congr
    intro k hk
    rw [includeOf_any]
    cases (route.dynamic.getD []).any (fun d => d.name == k) <;>
      cases k != "screen" <;> cases k != "params" <;> rfl
  rw [hsp]

/-- C4 counterexample: the dynamic segment `{name := "post", deep := true}`
with params `{post := ""}` — the parameter is present and not an array, so
the claim's rule says it is used directly (yielding the identifier ""), but
the code requires a truthy value and emits the catch-all placeholder. -/
theorem claimC4_counterexample :
    createGetIdForRoute deepPostRoute [("post", .str "")] = "[...post]"
      ∧ String.intercalate "/"
          ((deepPostRoute.dynamic.getD []).map (claimedSegmentFor [("post", .str "")])) = ""
      ∧ ("[...post]" : String) ≠ "" :=
  ⟨rfl, rfl, by decide⟩

/-- C4 (amended). The claim's per-segment rules hold once "present and not an
array" is strengthened to "present, not an array and non-empty", with the
placeholder fallback (catch-all style for deep segments) whenever no usable
value exists; segments are processed in declared order (duplicate-free names
keep the JS Map equal to the declared list) and joined with "/"; the claim's
two scenarios hold as stated. -/
theorem claimC4_amended :
    (∀ (route : RouteNode) (params : Params),
       ((route.dynamic.getD []).map (fun d => d.name)).Nodup →
       route.children ≠ [] →
       createGetIdForRoute route params
         = String.intercalate "/" ((route.dynamic.getD []).map (amendedSegmentFor params)))
    ∧ createGetIdForRoute postRoute [("post", .str "42")] = "42"
    ∧ createGetIdForRoute postRoute [] = "[post]" := by
  refine ⟨?_, rfl, rfl⟩
  intro route params hnd h
  rw [createGetIdForRoute_non_leaf route params h, includeOf_eq_self _ hnd,
      funext (segmentFor_eq_amended params)]

/-- C4 witness: a non-leaf route with no dynamic segments. -/
theorem claimC4_wit :
    createGetIdForRoute parentRoute [("q", ParamValue.str "x")]
      = String.intercalate "/" ((parentRoute.dynamic.getD []).map
          (amendedSegmentFor [("q", ParamValue.str "x")])) :=
  claimC4_amended.1 parentRoute [("q", ParamValue.str "x")] (by decide) (by simp [parentRoute])

/-- C5: for a leaf route the identifier appends exactly the residual keys —
parameter-bag keys not consumed by a declared dynamic segment and distinct
from the reserved `screen` and `params` — serialized `key=value` and joined
with "&" behind `base?`, with `contextKey` substituted when the joined
segment base is empty; a non-leaf route never appends residual parameters;
the claim's scenario yields `contextKey?q=abc`. -/
theorem claimC5 :
    (∀ (route : RouteNode) (params : Params),
       route.children = [] →
       createGetIdForRoute route params
         = (if (residualPairs route params).length != 0 then
              (if (String.intercalate "/" ((includeOf (route.dynamic.getD [])).map
                    (segmentFor params))) != ""
               then String.intercalate "/" ((includeOf (route.dynamic.getD [])).map
                    (segmentFor params))
               else route.contextKey)
                ++ "?" ++ String.intercalate "&" (residualPairs route params)
            else String.intercalate "/" ((includeOf (route.dynamic.getD [])).map
                  (segmentFor params))))
    ∧ (∀ (route : RouteNode) (params : Params),
       route.children ≠ [] →
       createGetIdForRoute route params
         = String.intercalate "/" ((includeOf (route.dynamic.getD [])).map (segmentFor params)))
    ∧ createGetIdForRoute aboutRoute [("q", .str "abc")] = aboutRoute.contextKey ++ "?q=abc" :=
  ⟨createGetIdForRoute_leaf, createGetIdForRoute_non_leaf, rfl⟩

/-- C5 witness: the leaf scenario route applied through the first part. -/
theorem claimC5_wit :
    createGetIdForRoute aboutRoute [("q", ParamValue.str "abc")]
      = (if (residualPairs aboutRoute [("q", ParamValue.str "abc")]).length != 0 then
           (if (String.intercalate "/" ((includeOf (aboutRoute.dynamic.getD [])).map
                 (segmentFor [("q", ParamValue.str "abc")]))) != ""
            then String.intercalate "/" ((includeOf (aboutRoute.dynamic.getD [])).map
                 (segmentFor [("q", ParamValue.str "abc")]))
            else aboutRoute.contextKey)
             ++ "?" ++ String.intercalate "&"
                 (residualPairs aboutRoute [("q", ParamValue.str "abc")])
         else String.intercalate "/" ((includeOf (aboutRoute.dynamic.getD [])).map
               (segmentFor [("q", ParamValue.str "abc")]))) :=
  claimC5.1 aboutRoute [("q", ParamValue.str "abc")] rfl

/-- C6: the code contradicts its own comment ("We should always return a
truthy value"): a leaf route with no dynamic segments and an empty parameter
bag gets the empty — falsy — identifier, since the `contextKey` fallback only
fires when residual search parameters exist. -/
theorem claimC6_bug_eval : createGetIdForRoute aboutRoute [] = "" := rfl

end UseScreens
